import Mathlib

/-!
# Verification of the SemanticTest pipeline engine

A shallow embedding of the core of the `semantic-test` repository:

* `src/core/Pipeline.js`  — the pipeline execution engine,
* `src/core/DataBus.js`   — the slot store,
* `src/core/Context.js`   — the shared context,
* `src/core/Block.js`     — the execution unit contract,
* `src/utils/path.js`     — `getPath` / `setPath`,
* `src/utils/conditions.js` — the condition evaluator.

JavaScript values are modelled by the inductive type `JsVal`.  Numbers are
modelled as integers (the engine only manipulates integral numbers: loop
counters, indices, lengths); `NaN`/fractional arithmetic is outside the model.
Wall-clock data (`Date.now()` timestamps and `measureTime` durations) are
environment inputs and are elided from the stored metadata.  Object identity
(reference equality of `===` on objects/arrays) is not representable in a
value model; `jsStrictEq` returns `false` on two composite values, which is the
behaviour of `===` on distinct references.  Strings are handled by explicit
character-list functions mirroring the regular expressions of the source.
-/

set_option maxHeartbeats 1000000

namespace SemanticTest

/-- JavaScript values, as used by the pipeline engine. -/
inductive JsVal where
  | undef : JsVal
  | null : JsVal
  | bool : Bool → JsVal
  | num : Int → JsVal
  | str : String → JsVal
  | arr : List JsVal → JsVal
  | obj : List (String × JsVal) → JsVal
deriving Repr

/-- JavaScript truthiness. Empty arrays and objects are truthy. -/
def truthy : JsVal → Bool
  | .undef => false
  | .null => false
  | .bool b => b
  | .num n => n != 0
  | .str s => s != ""
  | .arr _ => true
  | .obj _ => true

/-- Is the value `undefined`? (`=== undefined` tests in the source.) -/
def isUndef : JsVal → Bool
  | .undef => true
  | _ => false

/-- JavaScript strict equality `===`.  Primitives compare structurally;
arrays and objects compare by reference, which a value model renders as
`false` (two separately produced composites are distinct references). -/
def jsStrictEq : JsVal → JsVal → Bool
  | .undef, .undef => true
  | .null, .null => true
  | .bool a, .bool b => a == b
  | .num a, .num b => a == b
  | .str a, .str b => a == b
  | _, _ => false

/-- Lookup in an association list (first binding wins); models `Map.get`. -/
def assocLookup : List (String × JsVal) → String → Option JsVal
  | [], _ => none
  | (k', v') :: rest, k => if k' = k then some v' else assocLookup rest k

/-- `Map.set`: update the first binding in place, else append a new one
(insertion order is preserved, as for a JavaScript `Map`). -/
def assocSet : List (String × JsVal) → String → JsVal → List (String × JsVal)
  | [], k, v => [(k, v)]
  | (k', v') :: rest, k, v =>
      if k' = k then (k, v) :: rest else (k', v') :: assocSet rest k v

/-- `Map.delete`: remove the binding for a key. -/
def assocDelete : List (String × JsVal) → String → List (String × JsVal)
  | [], _ => []
  | (k', v') :: rest, k =>
      if k' = k then assocDelete rest k else (k', v') :: assocDelete rest k

/-- Membership test, models `Map.has`. -/
def assocHas (m : List (String × JsVal)) (k : String) : Bool :=
  (assocLookup m k).isSome

@[simp] theorem assocLookup_set_self (m : List (String × JsVal)) (k : String) (v : JsVal) :
    assocLookup (assocSet m k v) k = some v := by
  induction m with
  | nil => simp [assocSet, assocLookup]
  | cons p rest ih =>
      by_cases h : p.1 = k
      · simp [assocSet, h, assocLookup]
      · simp [assocSet, h, assocLookup, ih]

theorem assocLookup_set_ne (m : List (String × JsVal)) (k k' : String) (v : JsVal)
    (h : k' ≠ k) : assocLookup (assocSet m k v) k' = assocLookup m k' := by
  induction m with
  | nil =>
      simp only [assocSet, assocLookup]
      rw [if_neg (fun hh => h (Eq.symm hh))]
  | cons p rest ih =>
      by_cases hp : p.1 = k
      · subst hp
        simp only [assocSet, if_pos rfl, assocLookup]
        rw [if_neg (fun hh => h (Eq.symm hh)), if_neg (fun hh => h (Eq.symm hh))]
      · simp only [assocSet, if_neg hp, assocLookup]
        by_cases hk' : p.1 = k'
        · simp [hk']
        · simp [hk', ih]

@[simp] theorem assocLookup_delete_self (m : List (String × JsVal)) (k : String) :
    assocLookup (assocDelete m k) k = none := by
  induction m with
  | nil => simp [assocDelete, assocLookup]
  | cons p rest ih =>
      by_cases h : p.1 = k
      · simp [assocDelete, h, ih]
      · simp [assocDelete, h, assocLookup, ih]

/-! ## String scanning primitives

These mirror the string operations of the source (`split('.')`, `join('.')`,
`startsWith('env.')`, `includes('.')`, the regular expressions
`^(.+)\[(\d+)\]$` and `^\$\{([^}]+)\}$`) as character-list recursions. -/

/-- `name.split('.')` on a character list.  Like the JavaScript original it
always returns at least one (possibly empty) part. -/
def splitOnDot : List Char → List (List Char)
  | [] => [[]]
  | '.' :: rest => [] :: splitOnDot rest
  | c :: rest =>
      match splitOnDot rest with
      | [] => [[c]]
      | p :: ps => (c :: p) :: ps

/-- `parts.join('.')` on character lists. -/
def joinDot : List (List Char) → List Char
  | [] => []
  | [p] => p
  | p :: ps => p ++ '.' :: joinDot ps

/-- `name.includes('.')`. -/
def containsDot (l : List Char) : Bool := l.any (· = '.')

/-- `path.startsWith('env.')`. -/
def hasEnvPre : List Char → Bool
  | 'e' :: 'n' :: 'v' :: '.' :: _ => true
  | _ => false

/-- `value.includes('$' + '\x7b')` — does the string contain a template
opener? -/
def hasTemplate : List Char → Bool
  | '$' :: '\x7b' :: _ => true
  | _ :: rest => hasTemplate rest
  | [] => false

/-- Digit-run to number, the way `parseInt(s, 10)` reads an all-digit string. -/
def natOfDigits (ds : List Char) : Nat :=
  ds.foldl (fun acc c => acc * 10 + (c.toNat - '0'.toNat)) 0

/-- A canonical array-index string: nonempty digits with no leading zero
(except `"0"` itself).  JavaScript array indexing `a["k"]` hits an element
exactly for canonical numeric keys. -/
def parseCanonNat (l : List Char) : Option Nat :=
  match l with
  | [] => none
  | c :: rest =>
      if c = '0' then (if rest = [] then some 0 else none)
      else if (c :: rest).all (·.isDigit) then some (natOfDigits (c :: rest))
      else none

/-- Match of the regular expression `^(.+)\[(\d+)\]$` used by `getPath` and
`setPath`: splits a segment `name[digits]` into `(name, digits)`.  The greedy
`(.+)` takes everything up to the final bracket group. -/
def splitIndex (part : List Char) : Option (List Char × List Char) :=
  match part.reverse with
  | ']' :: rest =>
      let ds := rest.takeWhile (·.isDigit)
      let rem := rest.dropWhile (·.isDigit)
      match ds, rem with
      | [], _ => none
      | _, '[' :: pre =>
          if pre = [] then none else some (pre.reverse, ds.reverse)
      | _, _ => none
  | _ => none

/-! ## Property access on values -/

/-- Property read `v[key]` with a string key.  Objects use their fields;
arrays answer canonical numeric keys and `length`; strings answer `length`
and canonical numeric keys (single characters).  Reading any property of
other primitives yields `undefined`.  (`null`/`undefined` bases are handled
by the callers' `== null` guards, as in the source.) -/
def getProp : JsVal → String → JsVal
  | .obj m, k => (assocLookup m k).getD .undef
  | .arr xs, k =>
      if k = "length" then .num (Int.ofNat xs.length)
      else
        match parseCanonNat k.data with
        | some i => xs.getD i .undef
        | none => .undef
  | .str s, k =>
      if k = "length" then .num (Int.ofNat s.length)
      else
        match parseCanonNat k.data with
        | some i =>
            match s.data.get? i with
            | some c => .str (String.mk [c])
            | none => .undef
        | none => .undef
  | _, _ => (.undef)

/-- Element read `v[n]` with a number key (after `parseInt`): array element,
or object field named by the decimal rendering of `n`. -/
def elemGetNum : JsVal → Nat → JsVal
  | .arr xs, n => xs.getD n .undef
  | .obj m, n => (assocLookup m (toString n)).getD .undef
  | .str s, n =>
      match s.data.get? n with
      | some c => .str (String.mk [c])
      | none => .undef
  | _, _ => (.undef)

/-- Set element `n` of a list, padding with `undefined` holes the way a
JavaScript array extends on out-of-range index assignment. -/
def arrSet : List JsVal → Nat → JsVal → List JsVal
  | [], 0, v => [v]
  | [], n + 1, v => .undef :: arrSet [] n v
  | _ :: xs, 0, v => v :: xs
  | x :: xs, n + 1, v => x :: arrSet xs n v

/-- Property assignment `v[key] = w` with a string key.  Succeeds on objects,
and on arrays for canonical numeric keys.  Assignment to a primitive or
`null`/`undefined` raises a `TypeError` in strict mode (`none`); attaching a
non-index property to an array is outside the model. -/
def propSet : JsVal → String → JsVal → Option JsVal
  | .obj m, k, v => some (.obj (assocSet m k v))
  | .arr xs, k, v =>
      match parseCanonNat k.data with
      | some i => some (.arr (arrSet xs i v))
      | none => none
  | _, _, _ => none

/-- Element assignment `v[n] = w` with a number key (after `parseInt`). -/
def elemSetNum : JsVal → Nat → JsVal → Option JsVal
  | .arr xs, n, v => some (.arr (arrSet xs n v))
  | .obj m, n, v => some (.obj (assocSet m (toString n) v))
  | _, _, _ => none

/-! ## `src/utils/path.js` -/

/-- Loose equality to `null`: the `current == null` tests of the source,
true for both `null` and `undefined`. -/
def isNullish : JsVal → Bool
  | .null => true
  | .undef => true
  | _ => false

/-- The walk of `getPath` over the dot-split parts.  `current == null`
(matching `null` and `undefined`) aborts with `undefined` before each part,
exactly as in the source loop. -/
def getParts : JsVal → List (List Char) → JsVal
  | current, [] => current
  | current, part :: rest =>
      if isNullish current then .undef
      else
        match splitIndex part with
        | some (prop, ds) =>
            let c1 := getProp current (String.mk prop)
            if isNullish c1 then .undef
            else getParts (elemGetNum c1 (natOfDigits ds)) rest
        | none => getParts (getProp current (String.mk part)) rest

/-- `getPath(obj, path)` from `src/utils/path.js`. -/
def getPath (obj : JsVal) (path : String) : JsVal :=
  if path = "" then obj
  else getParts obj (splitOnDot path.data)

/-- The walk of `setPath` over the dot-split parts, returning the updated
root (the source mutates in place).  `none` is a strict-mode `TypeError`
(assignment through a primitive) or an array expando outside the model.
Intermediate containers are created as `\x7b\x7d` (or `[]` for an indexed
segment) whenever the present value is falsy, as in the source. -/
def setParts : JsVal → List (List Char) → JsVal → Option JsVal
  | current, [], _ => some current
  | current, [last], v =>
      match splitIndex last with
      | some (prop, ds) =>
          let c := getProp current (String.mk prop)
          let c' := if truthy c then c else .arr []
          match elemSetNum c' (natOfDigits ds) v with
          | some c'' => propSet current (String.mk prop) c''
          | none => none
      | none => propSet current (String.mk last) v
  | current, part :: rest, v =>
      match splitIndex part with
      | some (prop, ds) =>
          match parseCanonNat ds with
          | some idx =>
              let c1 := getProp current (String.mk prop)
              let c1' := if truthy c1 then c1 else .arr []
              let c2 := elemGetNum c1' idx
              let c2' := if truthy c2 then c2 else .obj []
              match setParts c2' rest v with
              | some child =>
                  match elemSetNum c1' idx child with
                  | some c1'' => propSet current (String.mk prop) c1''
                  | none => none
              | none => none
          | none => none
      | none =>
          let c := getProp current (String.mk part)
          let c' := if truthy c then c else .obj []
          match setParts c' rest v with
          | some child => propSet current (String.mk part) child
          | none => none

/-- `setPath(obj, path, value)` from `src/utils/path.js`, functionally:
returns the updated root.  An empty path is the source's early `return`
(no mutation). -/
def setPath (root : JsVal) (path : String) (v : JsVal) : Option JsVal :=
  if path = "" then some root
  else setParts root (splitOnDot path.data) v

/-! ## String coercion -/

mutual
/-- JavaScript `String(v)` coercion, used by template interpolation
(`` `_loopCount:...` `` keys, `replace` callbacks). -/
def jsStringOf : JsVal → String
  | .undef => "undefined"
  | .null => "null"
  | .bool true => "true"
  | .bool false => "false"
  | .num n => toString n
  | .str s => s
  | .arr xs => String.intercalate "," (jsStringList xs)
  | .obj _ => "[object Object]"

/-- Array `toString` renders `null`/`undefined` elements as empty strings. -/
def jsStringList : List JsVal → List String
  | [] => []
  | .undef :: xs => "" :: jsStringList xs
  | .null :: xs => "" :: jsStringList xs
  | x :: xs => jsStringOf x :: jsStringList xs
end

/-! ## `src/core/DataBus.js` -/

/-- Slot store contents: slot name to value, insertion ordered. -/
abbrev Bus := List (String × JsVal)

/-- `DataBus.get(name)`: if the name contains dots and is not a literal slot,
split off the first segment as the slot and traverse the remainder with
`getPath`; otherwise answer the literal slot (or `undefined`). -/
def busGet (bus : Bus) (name : String) : JsVal :=
  if containsDot name.data && (assocLookup bus name).isNone then
    match splitOnDot name.data with
    | [] => .undef
    | slot :: parts =>
        getPath ((assocLookup bus (String.mk slot)).getD .undef)
          (String.mk (joinDot parts))
  else (assocLookup bus name).getD (.undef)

/-- `DataBus.has(name)`: a literal slot, or a dotted name whose traversal is
defined. -/
def busHasSlot (bus : Bus) (name : String) : Bool :=
  if (assocLookup bus name).isSome then true
  else if name != "" && containsDot name.data then !(isUndef (busGet bus name))
  else false

/-- `DataBus.toObject()`: the slots as a plain record.  (Engine-written slot
lists never repeat a key, so first-binding lookup agrees with
`Object.fromEntries`.) -/
def busToObjVal (bus : Bus) : JsVal := .obj bus

/-! ## Context (`src/core/Context.js`) -/

/-- Context contents: key to value, insertion ordered. -/
abbrev Ctx := List (String × JsVal)

/-- `Context.get(key)` with the default `undefined`. -/
def ctxGet (ctx : Ctx) (k : String) : JsVal :=
  (assocLookup ctx k).getD (.undef)

/-- `Context.merge(obj)` for a plain record: shallow key overwrite. -/
def ctxMerge (ctx : Ctx) (obj : List (String × JsVal)) : Ctx :=
  obj.foldl (fun acc kv => assocSet acc kv.1 kv.2) ctx

/-! ## `src/utils/conditions.js` -/

/-- Substring test `hay.includes(needle)` on character lists. -/
def containsSub : List Char → List Char → Bool
  | hay, needle =>
      needle.isPrefixOf hay ||
        match hay with
        | [] => false
        | _ :: t => containsSub t needle

/-- Numeric/lexicographic `<` for `>`/`<` comparisons: numbers compare
numerically, strings lexicographically; comparisons across other shapes
(which JavaScript settles by numeric coercion) are outside the model and
answer `false`. -/
def jsLt : JsVal → JsVal → Bool
  | .num a, .num b => a < b
  | .str a, .str b => a < b
  | _, _ => false

/-- `<=` counterpart of `jsLt`. -/
def jsLe : JsVal → JsVal → Bool
  | .num a, .num b => a ≤ b
  | .str a, .str b => a ≤ b || a == b
  | _, _ => false

/-- `length >= expected` for `minLength` (numeric operand only; other operand
shapes coerce in JavaScript and are outside the model). -/
def lenGe (len : Nat) : JsVal → Bool
  | .num m => (Int.ofNat len) ≥ m
  | _ => false

/-- `length <= expected` for `maxLength`. -/
def lenLe (len : Nat) : JsVal → Bool
  | .num m => (Int.ofNat len) ≤ m
  | _ => false

/-- `evaluateOperator(actual, operator, expected)` from
`src/utils/conditions.js`.  The `rtest` parameter supplies the semantics of
`new RegExp(pattern).test(s)` — the regular-expression engine is an external
collaborator of the evaluator.  A non-string operator falls to the `default`
branch and faults, as the `switch` compares with `===`. -/
def evaluateOperator (rtest : String → String → Bool) (actual : JsVal)
    (operator : JsVal) (expected : JsVal) : Except String Bool :=
  match operator with
  | .str "equals" => .ok (jsStrictEq actual expected)
  | .str "notEquals" => .ok (!(jsStrictEq actual expected))
  | .str "gt" => .ok (jsLt expected actual)
  | .str "gte" => .ok (jsLe expected actual)
  | .str "lt" => .ok (jsLt actual expected)
  | .str "lte" => .ok (jsLe actual expected)
  | .str "contains" =>
      match actual with
      | .str s => .ok (containsSub s.data (jsStringOf expected).data)
      | .arr xs =>
          .ok (xs.any fun item =>
            match item, expected with
            | .str a, .str b => containsSub a.data b.data
            | _, _ => jsStrictEq item expected)
      | _ => .ok false
  | .str "notContains" =>
      match actual with
      | .str s => .ok (!(containsSub s.data (jsStringOf expected).data))
      | .arr xs => .ok (!(xs.any fun item => jsStrictEq item expected))
      | _ => .ok true
  | .str "minLength" =>
      match actual with
      | .str s => .ok (lenGe s.length expected)
      | .arr xs => .ok (lenGe xs.length expected)
      | _ => .ok false
  | .str "maxLength" =>
      match actual with
      | .str s => .ok (lenLe s.length expected)
      | .arr xs => .ok (lenLe xs.length expected)
      | _ => .ok false
  | .str "matches" =>
      match actual with
      | .str s => .ok (rtest (jsStringOf expected) s)
      | _ => .ok false
  | .str "notMatches" =>
      match actual with
      | .str s => .ok (!(rtest (jsStringOf expected) s))
      | _ => .ok true
  | .str "isNull" => .ok (jsStrictEq actual .null)
  | .str "isNotNull" => .ok (!(jsStrictEq actual .null))
  | .str "isDefined" => .ok (!(isUndef actual))
  | .str "isUndefined" => .ok (isUndef actual)
  | .str "isTrue" => .ok (jsStrictEq actual (.bool true))
  | .str "isFalse" => .ok (jsStrictEq actual (.bool false))
  | .str "isEmpty" =>
      match actual with
      | .str s => .ok (s.length == 0)
      | .arr xs => .ok (xs.length == 0)
      | .obj m => .ok (m.length == 0)
      | _ => .ok false
  | .str "isNotEmpty" =>
      match actual with
      | .str s => .ok (s.length > 0)
      | .arr xs => .ok (xs.length > 0)
      | .obj m => .ok (m.length > 0)
      | _ => .ok false
  | op => .error ("Unknown operator: " ++ jsStringOf op)

/-- The operators that evaluate without a `value` field. -/
def noValueOperators : List String :=
  ["isNull", "isNotNull", "isDefined", "isUndefined",
   "isTrue", "isFalse", "isEmpty", "isNotEmpty"]

/-- `evaluateCondition(data, condition)` from `src/utils/conditions.js`.
The condition is an arbitrary value; its `path`/`operator`/`value` fields are
read by property access (the source's destructuring).  A truthy non-string
`path` would crash `path.split` with a `TypeError` in the source. -/
def evaluateCondition (rtest : String → String → Bool) (data : JsVal)
    (cond : JsVal) : Except String Bool :=
  if !(truthy cond) then .error "Condition is required"
  else
    let path := getProp cond "path"
    let operator := getProp cond "operator"
    let value := getProp cond "value"
    if !(truthy path) then .error "Condition path is required"
    else if !(truthy operator) then .error "Condition operator is required"
    else
      match path with
      | .str p =>
          let actual := getPath data p
          let noValue :=
            match operator with
            | .str op => noValueOperators.contains op
            | _ => false
          if !noValue && isUndef value then
            .error ("Operator '" ++ jsStringOf operator ++ "' requires a value")
          else evaluateOperator rtest actual operator value
      | _ => .error "TypeError: path.split is not a function"

/-- `evaluateConditions(data, conditions)`: AND of all conditions; a
non-array argument faults.  The list is conjunction with short-circuit on a
fault, matching `Array.prototype.every` over a throwing callback. -/
def evaluateConditions (rtest : String → String → Bool) (data : JsVal)
    (conditions : JsVal) : Except String Bool :=
  match conditions with
  | .arr cs =>
      cs.foldl
        (fun acc c => do
          let b ← acc
          if b then evaluateCondition rtest data c else pure false)
        (Except.ok true)
  | _ => .error "Conditions must be an array"

/-! ## Template resolution (`Pipeline.resolveValue` / `Pipeline.deepResolve`) -/

/-- Scan to the first closing brace: `some (inner, rest)` splits
`inner ++ close ++ rest` where `inner` is brace-free, `none` if no closing
brace occurs. -/
def takeInnerSplit : List Char → Option (List Char × List Char)
  | [] => none
  | '\x7d' :: rest => some ([], rest)
  | c :: rest =>
      match takeInnerSplit rest with
      | some (inner, rem) => some (c :: inner, rem)
      | none => none

theorem takeInnerSplit_len :
    ∀ l inner rem, takeInnerSplit l = some (inner, rem) → rem.length < l.length := by
  intro l
  induction l with
  | nil => intro inner rem h; simp [takeInnerSplit] at h
  | cons c rest ih =>
      intro inner rem h
      by_cases hc : c = '\x7d'
      · subst hc
        simp [takeInnerSplit] at h
        simp [← h.2]
      · rw [show takeInnerSplit (c :: rest) =
              (match takeInnerSplit rest with
               | some (inner, rem) => some (c :: inner, rem)
               | none => none) from by
            cases rest <;> simp [takeInnerSplit, hc]] at h
        match hrest : takeInnerSplit rest with
        | some (inner', rem') =>
            rw [hrest] at h
            simp at h
            have := ih inner' rem' hrest
            simp [← h.2]
            omega
        | none => rw [hrest] at h; simp at h

/-- Match of the whole-string placeholder regex: the string is exactly
one `$\x7b...\x7d` group with a nonempty, brace-free inner path. -/
def parseWholePlaceholder (l : List Char) : Option (List Char) :=
  match l with
  | '$' :: '\x7b' :: rest =>
      match takeInnerSplit rest with
      | some (inner, []) => if inner = [] then none else some inner
      | _ => none
  | _ => none

/-- Whole-string placeholder resolution: `env.`-prefixed paths are answered
from Context only (stripping the prefix); otherwise Context wins when it
yields a defined value, else the Slot Store is consulted. -/
def resolvePath (bus : Bus) (ctx : Ctx) (path : String) : JsVal :=
  if hasEnvPre path.data then ctxGet ctx (String.mk (path.data.drop 4))
  else
    let cv := ctxGet ctx path
    if isUndef cv then busGet bus path else cv

/-- The `replace` callback for one `$\x7b...\x7d` occurrence inside a larger
string: resolve per the same precedence, keep the original text on a miss,
and coerce the resolved value with `String(...)` (template substitution in a
string produces a string). -/
def resolveInner (bus : Bus) (ctx : Ctx) (inner : List Char) : List Char :=
  let fullMatch := '$' :: '\x7b' :: (inner ++ ['\x7d'])
  if hasEnvPre inner then
    let v := ctxGet ctx (String.mk (inner.drop 4))
    if isUndef v then fullMatch else (jsStringOf v).data
  else
    let cv := ctxGet ctx (String.mk inner)
    if !(isUndef cv) then (jsStringOf cv).data
    else
      let bv := busGet bus (String.mk inner)
      if isUndef bv then fullMatch else (jsStringOf bv).data

/-- Global replacement of every `$\x7b...\x7d` occurrence (the partial
template case).  A `$\x7b` without a closing brace, or with an empty inner,
is not a match and stays literal. -/
def replaceTemplates (bus : Bus) (ctx : Ctx) : List Char → List Char
  | [] => []
  | '$' :: '\x7b' :: rest =>
      match h : takeInnerSplit rest with
      | some (inner, rem) =>
          if inner = [] then '$' :: replaceTemplates bus ctx ('\x7b' :: rest)
          else resolveInner bus ctx inner ++ replaceTemplates bus ctx rem
      | none => '$' :: replaceTemplates bus ctx ('\x7b' :: rest)
  | c :: rest => c :: replaceTemplates bus ctx rest
termination_by l => l.length
decreasing_by
  all_goals first
    | (have hlen := takeInnerSplit_len _ _ _ h; simp; omega)
    | (simp <;> omega)
    | simp

/-- `Pipeline.resolveValue(value)`: non-strings pass through; a whole-string
placeholder resolves with Context-over-Slot-Store precedence; a string with
embedded placeholders is substituted occurrence-wise; a plain string is
answered as a literal slot name when such a slot exists, else kept. -/
def resolveValue (bus : Bus) (ctx : Ctx) : JsVal → JsVal
  | .str s =>
      match parseWholePlaceholder s.data with
      | some path => resolvePath bus ctx (String.mk path)
      | none =>
          if hasTemplate s.data then
            .str (String.mk (replaceTemplates bus ctx s.data))
          else
            let sv := busGet bus s
            if isUndef sv then .str s else sv
  | v => v

mutual
/-- `Pipeline.deepResolve(value)`: resolve every string leaf. -/
def deepResolve (bus : Bus) (ctx : Ctx) : JsVal → JsVal
  | .str s => resolveValue bus ctx (.str s)
  | .arr xs => .arr (deepResolveList bus ctx xs)
  | .obj m => .obj (deepResolveObj bus ctx m)
  | v => v

/-- Element-wise `deepResolve` on arrays. -/
def deepResolveList (bus : Bus) (ctx : Ctx) : List JsVal → List JsVal
  | [] => []
  | x :: xs => deepResolve bus ctx x :: deepResolveList bus ctx xs

/-- Field-wise `deepResolve` on records. -/
def deepResolveObj (bus : Bus) (ctx : Ctx) :
    List (String × JsVal) → List (String × JsVal)
  | [] => []
  | (k, v) :: m => (k, deepResolve bus ctx v) :: deepResolveObj bus ctx m
end

/-! ## `src/core/Block.js` and the engine state -/

/-- One entry of `executionSummary.blockResults`.  The `duration` of the
source entry is wall-clock data and is elided. -/
structure BlockResult where
  id : String
  success : Bool
  error : JsVal
deriving Repr

/-- The execution summary (`totalDuration`, a wall-clock aggregate, is
elided). -/
structure Summary where
  totalBlocks : Nat
  executed : Nat
  succeeded : Nat
  failed : Nat
  hasErrors : Bool
  blockResults : List BlockResult
deriving Repr

/-- A configured block: its `id`, the `input`/`output`/`config` entries of
its configuration (`undefined` when absent), its statically declared required
input names, and its `process` behaviour.  `process` receives the resolved
inputs and the live Context and either returns an output value or throws
(modelled by `Except`, the thrown `Error` by its message); it may also have
updated the Context, which is returned alongside. -/
structure Block where
  id : String
  input : JsVal
  output : JsVal
  cfg : JsVal
  required : List String
  process : JsVal → Ctx → Except String JsVal × Ctx

/-- `Block.validateInputs`: the declared required names must be present and
not `undefined` in an object input; any other input shape counts every
required name as missing.  Returns the thrown message, or `none`. -/
def validateInputs (b : Block) (inputs : JsVal) : Option String :=
  let missing := b.required.filter fun r =>
    match inputs with
    | .obj _ => isUndef (getProp inputs r)
    | _ => true
  if missing.isEmpty then none
  else some ("Block '" ++ b.id ++ "' missing required inputs: " ++
    String.intercalate ", " missing)

/-- `Block.execute(inputs, context)`: validate, then `process`. -/
def blockExecute (b : Block) (inputs : JsVal) (ctx : Ctx) :
    Except String JsVal × Ctx :=
  match validateInputs b inputs with
  | some msg => (.error msg, ctx)
  | none => b.process inputs ctx

/-! ## The engine (`src/core/Pipeline.js`) -/

/-- The mutable state of one `execute()` call: the slot store, the context,
the execution summary, and a ghost trace of the block indices executed (in
order) used to state which blocks ran. -/
structure EngineState where
  bus : Bus
  ctx : Ctx
  summary : Summary
  trace : List Nat
deriving Repr

/-- Spread base for `\x7b...inputs, ...config\x7d`: spreading a non-object
contributes its own enumerable entries (none for the primitives that occur
here; array/string element spreads do not arise in pipeline configurations
and contribute nothing in the model). -/
def spreadEntries : JsVal → List (String × JsVal)
  | .obj m => m
  | _ => []

/-- `Pipeline.gatherInputs(block)`: the three input shapes (template string
wrapped as `body`; `from`/`as` slot lookup; deep-resolved record), the
whole-bus default, then the shallow merge of the block's `config` record on
top. -/
def gatherInputs (bus : Bus) (ctx : Ctx) (b : Block) : JsVal :=
  let inputs :=
    match b.input with
    | .str s =>
        if s = "" then busToObjVal bus
        else .obj [("body", resolveValue bus ctx (.str s))]
    | .obj m =>
        if truthy (getProp (.obj m) "from") then
          let value := busGet bus (jsStringOf (getProp (.obj m) "from"))
          if truthy (getProp (.obj m) "as") then
            .obj [(jsStringOf (getProp (.obj m) "as"), value)]
          else value
        else deepResolve bus ctx (.obj m)
    | .arr xs => deepResolve bus ctx (.arr xs)
    | _ => busToObjVal bus
  match b.cfg with
  | .obj cm => .obj (ctxMerge (spreadEntries inputs) cm)
  | .arr ca => .obj (ctxMerge (spreadEntries inputs) (spreadEntries (.arr ca)))
  | _ => inputs

/-- Metadata written by `storeBlockMetadata` (the `timestamp` and `duration`
wall-clock fields are elided; the `error` field is added only when truthy,
as in the source). -/
def metaVal (success : Bool) (error : JsVal) : JsVal :=
  .obj ([("success", .bool success)] ++
    (if truthy error then [("error", error)] else []))

/-- `Pipeline.storeBlockMetadata`: write the per-block metadata under the
single flat slot name `_meta.` + blockId. -/
def storeBlockMetadata (bus : Bus) (blockId : String) (success : Bool)
    (error : JsVal) : Bus :=
  assocSet bus ("_meta." ++ blockId) (metaVal success error)

/-- `Pipeline.updateExecutionSummary`. -/
def updateExecutionSummary (s : Summary) (success : Bool) : Summary :=
  if success then
    { s with executed := s.executed + 1, succeeded := s.succeeded + 1 }
  else
    { s with executed := s.executed + 1, failed := s.failed + 1,
             hasErrors := true }

/-- Append one entry to `blockResults`. -/
def pushResult (s : Summary) (id : String) (success : Bool) (error : JsVal) :
    Summary :=
  { s with blockResults := s.blockResults ++ [⟨id, success, error⟩] }

/-- `Pipeline.storeOutput(block, output)`: falsy output is a no-op; an
object (non-array) `output` configuration maps produced fields to slots,
skipping fields whose produced value is `undefined`; any other truthy
configuration is a single slot name holding the whole output; no
configuration stores the whole output under the block id.  (Slot names are
strings in pipeline descriptions; a non-string name is coerced.) -/
def storeOutput (bus : Bus) (b : Block) (output : JsVal) : Bus :=
  if !(truthy output) then bus
  else
    match b.output with
    | .obj m =>
        m.foldl
          (fun acc kv =>
            if isUndef (getProp output kv.1) then acc
            else assocSet acc (jsStringOf kv.2) (getProp output kv.1))
          bus
    | cfg =>
        if truthy cfg then assocSet bus (jsStringOf cfg) output
        else assocSet bus b.id output

/-- `Pipeline.handleBlockError(block, error, duration, shouldThrow)`:
record `_error`, the failure metadata, the summary entry; then either
rethrow (`shouldThrow` and no truthy `continueOnError` in Context — the
`Except.error` component) or report `true`, the signal to break the loop.
Both call sites in `execute` pass `shouldThrow = false`, so the rethrow
branch is unreachable there and the call always signals a break. -/
def handleBlockError (b : Block) (msg : String) (shouldThrow : Bool)
    (st : EngineState) : EngineState × Except String Bool :=
  let bus1 := assocSet st.bus "_error" (.str msg)
  let bus2 := storeBlockMetadata bus1 b.id false (.str msg)
  let sum1 := pushResult (updateExecutionSummary st.summary false)
    b.id false (.str msg)
  let st' := { st with bus := bus2, summary := sum1 }
  if shouldThrow && !(truthy (ctxGet st.ctx "continueOnError")) then
    (st', .error msg)
  else (st', .ok true)

/-- `Pipeline.handleBlockSuccess(block, output, duration)`. -/
def handleBlockSuccess (b : Block) (output : JsVal) (st : EngineState) :
    EngineState :=
  let bus1 := storeOutput st.bus b output
  let bus2 := storeBlockMetadata bus1 b.id true .null
  let sum1 := pushResult (updateExecutionSummary st.summary true)
    b.id true .undef
  { st with bus := bus2, summary := sum1 }

/-- `Pipeline.findBlockIndex(blockId)`: a number is used as-is; a string is
matched against block ids (`-1` when absent); any other value matches no id. -/
def findIdAux : List Block → String → Nat → Int
  | [], _, _ => -1
  | b :: rest, s, k => if b.id = s then Int.ofNat k else findIdAux rest s (k + 1)

/-- See `findIdAux`. -/
def findBlockIndex (blocks : List Block) : JsVal → Int
  | .num n => n
  | .str s => findIdAux blocks s 0
  | _ => -1

/-- The `loopCount >= maxLoops` bound: `undefined` takes the default
parameter `LIMITS.MAX_LOOP_ITERATIONS = 10`; numbers are used as-is;
`null`/booleans coerce numerically; other shapes (whose JavaScript coercion
is `NaN`-like and never refuses) are `none`. -/
def loopCap : JsVal → Option Int
  | .undef => some 10
  | .num n => some n
  | .null => some 0
  | .bool b => some (if b then 1 else 0)
  | _ => none

/-- The stored per-target counter read through `get(loopKey) || 0`:
engine-written counters are numbers; anything else reads as `0`. -/
def counterVal : JsVal → Int
  | .num n => n
  | _ => 0

/-- `Pipeline.handleLoop(loopTo, currentIndex, maxLoops)`: resolve the
target; a target that is found and strictly before the cursor consults the
per-target counter under `` `_loopCount:` `` + the `_loopTo` value as given;
at or past the cap the jump is refused (`none`, context unchanged), else the
counter is incremented and the jump lands on the target index (the source
returns `target - 1`, which the `for` increment brings back to the target). -/
def handleLoop (blocks : List Block) (loopTo : JsVal) (i : Nat)
    (maxV : JsVal) (ctx : Ctx) : Option Nat × Ctx :=
  let t := findBlockIndex blocks loopTo
  if 0 ≤ t ∧ t < (i : Int) then
    let key := "_loopCount:" ++ jsStringOf loopTo
    let cnt := counterVal (ctxGet ctx key)
    match loopCap maxV with
    | some cap =>
        if cnt ≥ cap then (none, ctx)
        else (some t.toNat, assocSet ctx key (.num (cnt + 1)))
    | none => (some t.toNat, assocSet ctx key (.num (cnt + 1)))
  else (none, ctx)

/-- The action decided by `Pipeline.checkFlowControl`. -/
inductive FlowAct where
  | brk : FlowAct
  | loop : Nat → FlowAct
  | cont : FlowAct
deriving Repr, DecidableEq

/-- `Pipeline.checkFlowControl(output, currentIndex)`: a truthy `_terminate`
breaks; a present `_loopTo` (any value but `undefined`) attempts a loop jump;
otherwise, and when the jump is refused, normal advance. -/
def checkFlowControl (blocks : List Block) (output : JsVal) (i : Nat)
    (ctx : Ctx) : FlowAct × Ctx :=
  if truthy output && truthy (getProp output "_terminate") then (.brk, ctx)
  else if truthy output && !(isUndef (getProp output "_loopTo")) then
    match handleLoop blocks (getProp output "_loopTo") i
        (getProp output "_maxLoops") ctx with
    | (some t, ctx') => (.loop t, ctx')
    | (none, ctx') => (.cont, ctx')
  else (.cont, ctx)

/-- The `for` loop of `Pipeline.execute`, as a fuel-indexed recursion over
the cursor (`none` is fuel exhaustion; any terminating run is reproduced by
a large enough fuel).  A thrown fault is recorded by `handleBlockError` with
`shouldThrow = false`, whose result is always `ok true` — so the source's
`if (...) break` always breaks and its trailing `continue` is dead code.  A
truthy `error` field in the output stores the output, records the error and
breaks unconditionally.  Otherwise the block succeeded and flow control
decides the next cursor. -/
def execLoop (blocks : List Block) : Nat → Nat → EngineState →
    Option EngineState
  | 0, _, _ => none
  | fuel + 1, i, st =>
      if h : i < blocks.length then
        let b := blocks.get ⟨i, h⟩
        let st0 := { st with trace := st.trace ++ [i] }
        let inputs := gatherInputs st0.bus st0.ctx b
        match blockExecute b inputs st0.ctx with
        | (.error e, ctx1) =>
            some (handleBlockError b e false { st0 with ctx := ctx1 }).1
        | (.ok output, ctx1) =>
            let st1 := { st0 with ctx := ctx1 }
            if truthy (getProp output "error") then
              let errV := getProp output "error"
              let bus1 := storeOutput st1.bus b output
              let bus2 := assocSet bus1 "_error" errV
              let bus3 := storeBlockMetadata bus2 b.id false errV
              let sum1 := pushResult (updateExecutionSummary st1.summary false)
                b.id false errV
              some { st1 with bus := bus3, summary := sum1 }
            else
              let st2 := handleBlockSuccess b output st1
              match checkFlowControl blocks output i st2.ctx with
              | (.brk, ctx2) => some { st2 with ctx := ctx2 }
              | (.loop t, ctx2) =>
                  execLoop blocks fuel t { st2 with ctx := ctx2 }
              | (.cont, ctx2) =>
                  execLoop blocks fuel (i + 1) { st2 with ctx := ctx2 }
      else some st

/-- The result record built at the end of `Pipeline.execute`. -/
structure ExecResult where
  data : Bus
  context : Ctx
  success : Bool
  error : Option JsVal
deriving Repr

/-- The result of `execute`: the slot store and context as records, the
success flag (`no summary error`), and the `_error` slot when present. -/
def mkResult (st : EngineState) : ExecResult :=
  { data := st.bus
    context := st.ctx
    success := !st.summary.hasErrors
    error :=
      if busHasSlot st.bus "_error" then some (busGet st.bus "_error")
      else none }

/-- `Pipeline.execute(initialInput, initialContext)` on a pipeline whose
slot store and context currently hold `bus` and `ctx` (both persist across
calls; a fresh pipeline passes `[]`).  The summary is recreated, the initial
context merged, a truthy initial input stored under `input`, and the block
loop run from cursor `0`. -/
def execute (blocks : List Block) (bus : Bus) (ctx : Ctx)
    (initialInput : JsVal) (initialContext : List (String × JsVal))
    (fuel : Nat) : Option (ExecResult × EngineState) :=
  let summary : Summary := ⟨blocks.length, 0, 0, 0, false, []⟩
  let ctx1 := ctxMerge ctx initialContext
  let bus1 := if truthy initialInput then assocSet bus "input" initialInput
    else bus
  match execLoop blocks fuel 0 ⟨bus1, ctx1, summary, []⟩ with
  | none => none
  | some st => some (mkResult st, st)

/-! ## Helper lemmas -/

theorem strMk_data (s : String) : String.mk s.data = s := rfl

theorem takeInnerSplit_closed (k : List Char) (hk : '\x7d' ∉ k) :
    takeInnerSplit (k ++ ['\x7d']) = some (k, []) := by
  induction k with
  | nil => simp [takeInnerSplit]
  | cons c rest ih =>
      have hc : c ≠ '\x7d' := fun h => hk (h ▸ List.mem_cons_self c rest)
      have hrest : '\x7d' ∉ rest := fun h => hk (List.mem_cons_of_mem c h)
      rw [show ((c :: rest) ++ ['\x7d']) = c :: (rest ++ ['\x7d']) from rfl]
      rw [show takeInnerSplit (c :: (rest ++ ['\x7d'])) =
            (match takeInnerSplit (rest ++ ['\x7d']) with
             | some (inner, rem) => some (c :: inner, rem)
             | none => none) from by
          cases hlist : rest ++ ['\x7d'] with
          | nil => simp at hlist
          | cons d t => simp [takeInnerSplit, hc]]
      rw [ih hrest]

/-- The placeholder string `$\x7b` + X + `\x7d` built around a path X. -/
def placeholderOf (x : String) : String := "$\x7b" ++ x ++ "\x7d"

theorem parseWholePlaceholder_of (x : String) (hne : x.data ≠ [])
    (hbr : '\x7d' ∉ x.data) :
    parseWholePlaceholder (placeholderOf x).data = some x.data := by
  have hdata : (placeholderOf x).data = '$' :: '\x7b' :: (x.data ++ ['\x7d']) := by
    simp [placeholderOf, String.data_append]
  rw [hdata]
  simp only [parseWholePlaceholder, takeInnerSplit_closed x.data hbr]
  simp [hne]

/-! ## Claim C3 -/

/-- C3, counterexample.  The claim says an `env.`-prefixed whole-string
placeholder whose stripped key is missing from Context falls through to a
Slot Store lookup.  With an empty Context and a Slot Store that holds both a
literal `env.X` slot and a nested `env` record, resolution returns
`undefined`: the Slot Store is never consulted on the `env.` path. -/
theorem envPlaceholderFallthroughRefuted :
    resolveValue [("env.X", JsVal.str "from-bus"),
        ("env", JsVal.obj [("X", JsVal.str "bus-nested")])] []
      (.str "$\x7benv.X\x7d") = .undef
  ∧ busGet [("env.X", JsVal.str "from-bus"),
        ("env", JsVal.obj [("X", JsVal.str "bus-nested")])] "env.X" =
      .str "from-bus" := by
  constructor <;> rfl

/-- C3, amended: a whole-string placeholder whose path starts with `env.` is
resolved only against the Context under the stripped key; when the Context
has no entry for that key the result is `undefined`, whatever the Slot Store
holds — there is no fall-through. -/
theorem envPlaceholderContextOnly (bus : Bus) (ctx : Ctx) (k : String)
    (hbr : '\x7d' ∉ k.data) (hmiss : ctxGet ctx k = .undef) :
    resolveValue bus ctx (.str (placeholderOf ("env." ++ k))) = .undef := by
  have hdata : ("env." ++ k).data = 'e' :: 'n' :: 'v' :: '.' :: k.data := by
    simp [String.data_append]
  have hne : ("env." ++ k).data ≠ [] := by rw [hdata]; simp
  have hbr' : '\x7d' ∉ ("env." ++ k).data := by
    rw [hdata]
    intro h
    simp only [List.mem_cons] at h
    rcases h with h | h | h | h | h
    · exact absurd h (by decide)
    · exact absurd h (by decide)
    · exact absurd h (by decide)
    · exact absurd h (by decide)
    · exact hbr h
  have hp := parseWholePlaceholder_of ("env." ++ k) hne hbr'
  simp only [resolveValue, hp]
  simp only [resolvePath, hdata, hasEnvPre, if_pos]
  simpa [List.drop, strMk_data] using hmiss

/-- Witness for C3's amended theorem at the key `X`. -/
theorem envPlaceholderContextOnly_check :
    resolveValue [("env.X", JsVal.str "from-bus")] []
      (.str (placeholderOf ("env." ++ "X"))) = .undef :=
  envPlaceholderContextOnly [("env.X", JsVal.str "from-bus")] [] "X"
    (by decide) rfl

/-! ## Claim C4 -/

/-- C4, counterexample.  The claim quantifies over every key defined in both
stores, but a key that itself starts with `env.` is routed to the `env.`
branch: with `env.a` present in both Context and Slot Store, resolving the
placeholder yields `undefined` — neither the Context value (first half of
the claim) nor, after deleting the key from Context, the Slot Store value
(second half). -/
theorem contextPrecedenceRefuted :
    assocLookup [("env.a", JsVal.str "from-context")] "env.a" =
      some (.str "from-context")
  ∧ assocLookup [("env.a", JsVal.str "from-databus")] "env.a" =
      some (.str "from-databus")
  ∧ resolveValue [("env.a", JsVal.str "from-databus")]
      [("env.a", JsVal.str "from-context")] (.str "$\x7benv.a\x7d") = .undef
  ∧ resolveValue [("env.a", JsVal.str "from-databus")]
      (assocDelete [("env.a", JsVal.str "from-context")] "env.a")
      (.str "$\x7benv.a\x7d") = .undef := by
  refine ⟨rfl, rfl, rfl, rfl⟩

/-- C4, amended: for every key X that yields a well-formed placeholder
(nonempty, brace-free), does not start with `env.`, and whose Context value
is defined, resolving the whole-string placeholder yields the Context value;
after deleting X from the Context, the same resolution yields the Slot Store
value. -/
theorem contextPrecedenceAmended (bus : Bus) (ctx : Ctx) (x : String)
    (vc vb : JsVal) (hne : x.data ≠ []) (hbr : '\x7d' ∉ x.data)
    (henv : hasEnvPre x.data = false)
    (hc : assocLookup ctx x = some vc) (hcd : isUndef vc = false)
    (hb : assocLookup bus x = some vb) :
    resolveValue bus ctx (.str (placeholderOf x)) = vc
  ∧ resolveValue bus (assocDelete ctx x) (.str (placeholderOf x)) = vb := by
  have hp := parseWholePlaceholder_of x hne hbr
  constructor
  · simp only [resolveValue, hp, resolvePath, henv, Bool.false_eq_true,
      if_false, strMk_data]
    simp [ctxGet, hc, hcd]
  · simp only [resolveValue, hp, resolvePath, henv, Bool.false_eq_true,
      if_false, strMk_data]
    simp only [ctxGet, assocLookup_delete_self, Option.getD_none, isUndef,
      if_pos]
    simp [busGet, hb]

/-- Witness for C4's amended theorem at the key `X`. -/
theorem contextPrecedenceAmended_check :
    resolveValue [("X", JsVal.str "from-databus")]
      [("X", JsVal.str "from-context")] (.str (placeholderOf "X")) =
      .str "from-context"
  ∧ resolveValue [("X", JsVal.str "from-databus")]
      (assocDelete [("X", JsVal.str "from-context")] "X")
      (.str (placeholderOf "X")) = .str "from-databus" :=
  contextPrecedenceAmended [("X", JsVal.str "from-databus")]
    [("X", JsVal.str "from-context")] "X" (.str "from-context")
    (.str "from-databus") (by decide) (by decide) rfl rfl rfl rfl

/-! ## Claim C6 -/

theorem findIdAux_none (blocks : List Block) (s : String)
    (h : ∀ b ∈ blocks, b.id ≠ s) : ∀ k, findIdAux blocks s k = -1 := by
  induction blocks with
  | nil => intro k; rfl
  | cons b rest ih =>
      intro k
      have hb : b.id ≠ s := h b (List.mem_cons_self b rest)
      simp only [findIdAux, if_neg hb]
      exact ih (fun b' hb' => h b' (List.mem_cons_of_mem b hb')) (k + 1)

theorem handleLoop_some (blocks : List Block) (loopTo : JsVal) (i : Nat)
    (maxV : JsVal) (ctx ctx' : Ctx) (t : Nat)
    (h : handleLoop blocks loopTo i maxV ctx = (some t, ctx')) : t < i := by
  unfold handleLoop at h
  by_cases hc : 0 ≤ findBlockIndex blocks loopTo ∧
      findBlockIndex blocks loopTo < (i : Int)
  · rw [if_pos hc] at h
    obtain ⟨h0, hlt⟩ := hc
    rcases hcap : loopCap maxV with _ | cap
    · rw [hcap] at h
      simp at h
      omega
    · rw [hcap] at h
      by_cases hcnt : counterVal
          (ctxGet ctx ("_loopCount:" ++ jsStringOf loopTo)) ≥ cap
      · simp only [if_pos hcnt] at h
        simp at h
      · simp only [if_neg hcnt] at h
        simp at h
        omega
  · rw [if_neg hc] at h
    simp at h

/-- C6: a `_loopTo` whose resolved target index is at or past the cursor —
including an unknown id, which resolves to `-1` — never moves the cursor:
`handleLoop` refuses the jump with the context untouched, `checkFlowControl`
reports a normal advance, and more generally a loop action can only ever
target an index strictly before the cursor. -/
theorem forwardLoopRejected (blocks : List Block) (output : JsVal) (i : Nat)
    (ctx : Ctx)
    (hfwd : (i : Int) ≤ findBlockIndex blocks (getProp output "_loopTo")
          ∨ findBlockIndex blocks (getProp output "_loopTo") < 0) :
    (∀ maxV, handleLoop blocks (getProp output "_loopTo") i maxV ctx =
      (none, ctx))
  ∧ (truthy output = true → truthy (getProp output "_terminate") = false →
      checkFlowControl blocks output i ctx = (.cont, ctx))
  ∧ (∀ s, (∀ b ∈ blocks, b.id ≠ s) → findBlockIndex blocks (.str s) = -1)
  ∧ (∀ (output' : JsVal) (i' : Nat) (ctx' ctx2 : Ctx) (t : Nat),
      checkFlowControl blocks output' i' ctx' = (.loop t, ctx2) → t < i') := by
  have hrefuse : ∀ maxV,
      handleLoop blocks (getProp output "_loopTo") i maxV ctx = (none, ctx) := by
    intro maxV
    unfold handleLoop
    rw [if_neg]
    intro hcond
    obtain ⟨h0, hlt⟩ := hcond
    rcases hfwd with h | h
    · omega
    · omega
  refine ⟨hrefuse, ?_, ?_, ?_⟩
  · intro htr hterm
    unfold checkFlowControl
    rw [htr, hterm]
    simp only [Bool.and_false, Bool.true_and, Bool.false_eq_true, if_false]
    by_cases hu : isUndef (getProp output "_loopTo")
    · simp [hu]
    · simp only [eq_self_iff_true, hu, Bool.not_false, Bool.and_true,
        Bool.not_eq_true']
      rw [if_pos (by simp [hu])]
      rw [hrefuse (getProp output "_maxLoops")]
  · intro s hs
    simp only [findBlockIndex]
    exact findIdAux_none blocks s hs 0
  · intro output' i' ctx' ctx2 t h
    unfold checkFlowControl at h
    by_cases h1 : truthy output' && truthy (getProp output' "_terminate")
    · rw [if_pos h1] at h
      simp at h
    · rw [if_neg h1] at h
      by_cases h2 : truthy output' && !(isUndef (getProp output' "_loopTo"))
      · rw [if_pos h2] at h
        rcases hl : handleLoop blocks (getProp output' "_loopTo") i'
            (getProp output' "_maxLoops") ctx' with ⟨ot, cx⟩
        rw [hl] at h
        cases ot with
        | some t' =>
            simp only [Prod.mk.injEq, FlowAct.loop.injEq] at h
            obtain ⟨ht, -⟩ := h
            subst ht
            exact handleLoop_some blocks (getProp output' "_loopTo") i'
              (getProp output' "_maxLoops") ctx' cx t' hl
        | none => simp at h
      · rw [if_neg h2] at h
        simp at h

/-- Witness for C6: a forward `_loopTo` (target index 1 at cursor 0) is
refused and treated as a normal advance. -/
theorem forwardLoopRejected_check :
    handleLoop
      [⟨"a", .undef, .undef, .undef, [], fun _ c => (.ok (.obj []), c)⟩,
       ⟨"b", .undef, .undef, .undef, [], fun _ c => (.ok (.obj []), c)⟩]
      (JsVal.num 1) 0 .undef [] = (none, [])
  ∧ checkFlowControl
      [⟨"a", .undef, .undef, .undef, [], fun _ c => (.ok (.obj []), c)⟩,
       ⟨"b", .undef, .undef, .undef, [], fun _ c => (.ok (.obj []), c)⟩]
      (.obj [("_loopTo", JsVal.num 1)]) 0 [] = (.cont, []) := by
  obtain ⟨h1, h2, h3, h4⟩ := forwardLoopRejected
    [⟨"a", .undef, .undef, .undef, [], fun _ c => (.ok (.obj []), c)⟩,
     ⟨"b", .undef, .undef, .undef, [], fun _ c => (.ok (.obj []), c)⟩]
    (.obj [("_loopTo", JsVal.num 1)]) 0 [] (by left; decide)
  exact ⟨h1 .undef, h2 rfl rfl⟩

/-! ## Claim C10 -/

theorem splitOnDot_ne_nil (l : List Char) : splitOnDot l ≠ [] := by
  induction l with
  | nil => simp [splitOnDot]
  | cons c rest ih =>
      by_cases hc : c = '.'
      · subst hc; simp [splitOnDot]
      · rw [show splitOnDot (c :: rest) =
              (match splitOnDot rest with
               | [] => [[c]]
               | p :: ps => (c :: p) :: ps) from by
            cases rest <;> simp [splitOnDot, hc]]
        rcases h : splitOnDot rest with _ | ⟨p, ps⟩
        · simp
        · simp

theorem splitOnDot_cons_ne (c : Char) (rest : List Char) (hc : c ≠ '.') :
    splitOnDot (c :: rest) =
      (match splitOnDot rest with
       | [] => [[c]]
       | p :: ps => (c :: p) :: ps) := by
  cases rest <;> simp [splitOnDot, hc]

theorem splitOnDot_append (a b : List Char) (ha : '.' ∉ a) :
    splitOnDot (a ++ '.' :: b) = a :: splitOnDot b := by
  induction a with
  | nil => simp [splitOnDot]
  | cons c rest ih =>
      have hc : c ≠ '.' := fun h => ha (h ▸ List.mem_cons_self c rest)
      have hrest : '.' ∉ rest := fun h => ha (List.mem_cons_of_mem c h)
      rw [List.cons_append, splitOnDot_cons_ne c (rest ++ '.' :: b) hc,
        ih hrest]

theorem joinDot_splitOnDot (l : List Char) : joinDot (splitOnDot l) = l := by
  induction l with
  | nil => simp [splitOnDot, joinDot]
  | cons c rest ih =>
      by_cases hc : c = '.'
      · subst hc
        rw [show splitOnDot ('.' :: rest) = [] :: splitOnDot rest from rfl]
        rcases h : splitOnDot rest with _ | ⟨p, ps⟩
        · exact absurd h (splitOnDot_ne_nil rest)
        · rw [h] at ih
          simp [joinDot, ih]
      · rw [splitOnDot_cons_ne c rest hc]
        rcases h : splitOnDot rest with _ | ⟨p, ps⟩
        · exact absurd h (splitOnDot_ne_nil rest)
        · rw [h] at ih
          cases ps with
          | nil => simp_all [joinDot]
          | cons q qs => simp_all [joinDot]

/-- C10: `DataBus.get` answers a literal slot directly — even for a dotted
name, a literal slot of exactly that name shadows path traversal; only when
no literal slot exists is the name split at the first dot and the remainder
traversed inside the first segment slot.  Consequently the engine metadata
written by `storeBlockMetadata` lives under the single flat key
`_meta.` + blockId, leaving any `_meta` slot untouched. -/
theorem literalSlotShadowsPath :
    (∀ (bus : Bus) (name : String) (v : JsVal),
        assocLookup bus name = some v → busGet bus name = v)
  ∧ (∀ (bus : Bus) (s1 s2 : String), '.' ∉ s1.data →
        assocLookup bus (s1 ++ "." ++ s2) = none →
        busGet bus (s1 ++ "." ++ s2) =
          getPath ((assocLookup bus s1).getD .undef) s2)
  ∧ (∀ (bus : Bus) (blockId : String) (success : Bool) (err : JsVal),
        assocLookup (storeBlockMetadata bus blockId success err)
          ("_meta." ++ blockId) = some (metaVal success err)
      ∧ assocLookup (storeBlockMetadata bus blockId success err) "_meta" =
          assocLookup bus "_meta") := by
  refine ⟨?_, ?_, ?_⟩
  · intro bus name v h
    simp [busGet, h]
  · intro bus s1 s2 hdot hmiss
    have hdata : (s1 ++ "." ++ s2).data = s1.data ++ '.' :: s2.data := by
      simp [String.data_append]
    have hcd : containsDot (s1 ++ "." ++ s2).data = true := by
      rw [hdata]
      simp [containsDot]
    unfold busGet
    rw [hmiss, hcd]
    simp only [Option.isNone_none, Bool.and_self, if_true]
    rw [hdata, splitOnDot_append s1.data s2.data hdot]
    simp only []
    rw [joinDot_splitOnDot, strMk_data, strMk_data]
  · intro bus blockId success err
    constructor
    · simp [storeBlockMetadata]
    · rw [storeBlockMetadata, assocLookup_set_ne]
      intro heq
      have hlen := congrArg String.length heq
      rw [String.length_append] at hlen
      have h5 : ("_meta" : String).length = 5 := rfl
      have h6 : ("_meta." : String).length = 6 := rfl
      omega

/-- Witness for C10 at concrete stores. -/
theorem literalSlotShadowsPath_check :
    busGet [("_meta.b1", JsVal.str "flat"),
        ("_meta", JsVal.obj [("b1", JsVal.str "nested")])] "_meta.b1" =
      .str "flat"
  ∧ busGet [("_meta", JsVal.obj [("b1", JsVal.str "nested")])] "_meta.b1" =
      getPath ((assocLookup [("_meta", JsVal.obj [("b1", JsVal.str "nested")])]
        "_meta").getD .undef) "b1" := by
  obtain ⟨h1, h2, h3⟩ := literalSlotShadowsPath
  refine ⟨h1 _ "_meta.b1" (.str "flat") rfl, ?_⟩
  have := h2 [("_meta", JsVal.obj [("b1", JsVal.str "nested")])] "_meta" "b1"
    (by decide) rfl
  simpa using this

/-! ## Claim C9 -/

theorem noValueOp_isOk (rtest : String → String → Bool) (actual : JsVal)
    (op : String) (hmem : op ∈ noValueOperators) :
    (evaluateOperator rtest actual (.str op) .undef).isOk = true := by
  simp only [noValueOperators, List.mem_cons, List.not_mem_nil,
    or_false] at hmem
  rcases hmem with h | h | h | h | h | h | h | h <;> subst h <;>
    cases actual <;> rfl

theorem evaluateCondition_noValue_eq (rtest : String → String → Bool)
    (data : JsVal) (p op : String) (hp : p ≠ "") (hop : op ≠ "")
    (hmem : op ∈ noValueOperators) :
    evaluateCondition rtest data
      (.obj [("path", .str p), ("operator", .str op)]) =
      evaluateOperator rtest (getPath data p) (.str op) .undef := by
  simp [evaluateCondition, getProp, assocLookup, truthy, hp, hop, isUndef,
    hmem]

/-- C9: with a present path and operator, a condition whose operator is
outside the no-value set and whose `value` field is absent faults with the
requires-a-value message; the falsy operand values `0`, `false` and the
empty string do not trigger that fault (evaluation proceeds to
`evaluateOperator`); and an operator inside the no-value set evaluates
without a `value` field, returning a boolean (`isOk`). -/
theorem conditionValueRequirement (rtest : String → String → Bool)
    (data : JsVal) (p op : String) (hp : p ≠ "") (hop : op ≠ "") :
    (noValueOperators.contains op = false →
      evaluateCondition rtest data
        (.obj [("path", .str p), ("operator", .str op)]) =
        .error ("Operator '" ++ op ++ "' requires a value"))
  ∧ (∀ v, v = .num 0 ∨ v = .bool false ∨ v = .str "" →
      evaluateCondition rtest data
        (.obj [("path", .str p), ("operator", .str op), ("value", v)]) =
        evaluateOperator rtest (getPath data p) (.str op) v)
  ∧ (noValueOperators.contains op = true →
      (evaluateCondition rtest data
        (.obj [("path", .str p), ("operator", .str op)])).isOk = true) := by
  refine ⟨?_, ?_, ?_⟩
  · intro hnv
    have hnv2 : op ∉ noValueOperators := by simpa using hnv
    simp [evaluateCondition, getProp, assocLookup, truthy, hp, hop, hnv2,
      isUndef, jsStringOf]
  · intro v hv
    rcases hv with h | h | h <;> subst h <;>
      simp [evaluateCondition, getProp, assocLookup, truthy, hp, hop, isUndef]
  · intro hnv
    have hmem : op ∈ noValueOperators := by simpa using hnv
    rw [evaluateCondition_noValue_eq rtest data p op hp hop hmem]
    exact noValueOp_isOk rtest (getPath data p) op hmem

/-- Witness for C9 at `gt` (value-requiring) and `isNull` (no-value). -/
theorem conditionValueRequirement_check :
    evaluateCondition (fun _ _ => false) (.obj [("a", JsVal.num 0)])
      (.obj [("path", .str "a"), ("operator", .str "gt")]) =
      .error "Operator 'gt' requires a value"
  ∧ evaluateCondition (fun _ _ => false) (.obj [("a", JsVal.num 0)])
      (.obj [("path", .str "a"), ("operator", .str "gt"),
        ("value", .num 0)]) =
      evaluateOperator (fun _ _ => false)
        (getPath (.obj [("a", JsVal.num 0)]) "a") (.str "gt") (.num 0)
  ∧ (evaluateCondition (fun _ _ => false) (.obj [("a", JsVal.num 0)])
      (.obj [("path", .str "a"), ("operator", .str "isNull")])).isOk =
      true := by
  refine ⟨?_, ?_, ?_⟩
  · exact (conditionValueRequirement (fun _ _ => false)
      (.obj [("a", JsVal.num 0)]) "a" "gt" (by decide) (by decide)).1 (by decide)
  · exact (conditionValueRequirement (fun _ _ => false)
      (.obj [("a", JsVal.num 0)]) "a" "gt" (by decide) (by decide)).2.1
      (.num 0) (Or.inl rfl)
  · exact (conditionValueRequirement (fun _ _ => false)
      (.obj [("a", JsVal.num 0)]) "a" "isNull" (by decide) (by decide)).2.2
      (by decide)

/-! ## Claim C7 -/

/-- The slot names an output mapping writes: the mapped slots whose produced
field is defined. -/
def writtenSlots (output : JsVal) (m : List (String × JsVal)) : List String :=
  m.filterMap fun kv =>
    if isUndef (getProp output kv.1) then none else some (jsStringOf kv.2)

/-- The mapping fold of `storeOutput`, named for the lemmas below. -/
def storeMapFold (output : JsVal) (m : List (String × JsVal)) (acc : Bus) :
    Bus :=
  m.foldl
    (fun acc kv =>
      if isUndef (getProp output kv.1) then acc
      else assocSet acc (jsStringOf kv.2) (getProp output kv.1))
    acc

theorem storeOutput_obj (bus : Bus) (b : Block) (m o : List (String × JsVal))
    (hout : b.output = .obj m) :
    storeOutput bus b (.obj o) = storeMapFold (.obj o) m bus := by
  simp [storeOutput, truthy, hout, storeMapFold]

theorem storeMapFold_frame (output : JsVal) (m : List (String × JsVal))
    (acc : Bus) (name : String) (h : name ∉ writtenSlots output m) :
    assocLookup (storeMapFold output m acc) name = assocLookup acc name := by
  induction m generalizing acc with
  | nil => rfl
  | cons kv rest ih =>
      by_cases hd : isUndef (getProp output kv.1)
      · have hrest : name ∉ writtenSlots output rest := by
          simpa [writtenSlots, hd] using h
        simpa [storeMapFold, hd] using ih acc hrest
      · have hname : name ≠ jsStringOf kv.2 ∧ name ∉ writtenSlots output rest := by
          have := h
          simp [writtenSlots, hd] at this
          exact ⟨fun he => this.1 he, by
            simpa [writtenSlots] using this.2⟩
      
        rw [show storeMapFold output (kv :: rest) acc =
            storeMapFold output rest
              (assocSet acc (jsStringOf kv.2) (getProp output kv.1)) from by
          simp [storeMapFold, hd]]
        rw [ih _ hname.2]
        exact assocLookup_set_ne acc (jsStringOf kv.2) name
          (getProp output kv.1) hname.1

theorem storeMapFold_write (output : JsVal) (m : List (String × JsVal))
    (acc : Bus) (kv : String × JsVal) (hkv : kv ∈ m)
    (hdef : isUndef (getProp output kv.1) = false)
    (hnd : (writtenSlots output m).Nodup) :
    assocLookup (storeMapFold output m acc) (jsStringOf kv.2) =
      some (getProp output kv.1) := by
  induction m generalizing acc with
  | nil => cases hkv
  | cons hd rest ih =>
      rcases List.mem_cons.mp hkv with he | hin
      · subst he
        rw [show storeMapFold output (kv :: rest) acc =
            storeMapFold output rest
              (assocSet acc (jsStringOf kv.2) (getProp output kv.1)) from by
          simp [storeMapFold, hdef]]
        have hnotin : jsStringOf kv.2 ∉ writtenSlots output rest := by
          have : writtenSlots output (kv :: rest) =
              jsStringOf kv.2 :: writtenSlots output rest := by
            simp [writtenSlots, hdef]
          rw [this] at hnd
          exact (List.nodup_cons.mp hnd).1
        rw [storeMapFold_frame output rest _ _ hnotin]
        exact assocLookup_set_self acc (jsStringOf kv.2) (getProp output kv.1)
      · by_cases hhd : isUndef (getProp output hd.1)
        · have hnd' : (writtenSlots output rest).Nodup := by
            simpa [writtenSlots, hhd] using hnd
          rw [show storeMapFold output (hd :: rest) acc =
              storeMapFold output rest acc from by simp [storeMapFold, hhd]]
          exact ih acc hin hnd'
        · have hnd' : (writtenSlots output rest).Nodup := by
            have : writtenSlots output (hd :: rest) =
                jsStringOf hd.2 :: writtenSlots output rest := by
              simp [writtenSlots, hhd]
            rw [this] at hnd
            exact (List.nodup_cons.mp hnd).2
          rw [show storeMapFold output (hd :: rest) acc =
              storeMapFold output rest
                (assocSet acc (jsStringOf hd.2) (getProp output hd.1)) from by
            simp [storeMapFold, hhd]]
          exact ih _ hin hnd'

/-- C7: for a block whose `output` configuration is a record of
field-to-slot pairs (with pairwise distinct written slot names, as in any
sensible mapping), `storeOutput` writes exactly the mapped fields whose
produced value is defined — every such slot holds that field's value, and
every other slot name keeps its previous binding (in particular, unmapped
produced fields such as `extra` get no slot). -/
theorem storeOutputMappingExact (bus : Bus) (b : Block)
    (m o : List (String × JsVal)) (hout : b.output = .obj m)
    (hnd : (writtenSlots (.obj o) m).Nodup) :
    (∀ name, name ∉ writtenSlots (.obj o) m →
        assocLookup (storeOutput bus b (.obj o)) name = assocLookup bus name)
  ∧ (∀ kv ∈ m, isUndef (getProp (.obj o) kv.1) = false →
        assocLookup (storeOutput bus b (.obj o)) (jsStringOf kv.2) =
          some (getProp (.obj o) kv.1)) := by
  rw [storeOutput_obj bus b m o hout]
  exact ⟨fun name h => storeMapFold_frame (.obj o) m bus name h,
    fun kv hkv hdef => storeMapFold_write (.obj o) m bus kv hkv hdef hnd⟩

/-- Witness for C7 at the output-mapping scenario of the specification. -/
theorem storeOutputMappingExact_check :
    assocLookup
      (storeOutput [("keep", JsVal.num 9)]
        ⟨"u", .undef, .obj [("parsed", .str "data"), ("error", .str "err")],
          .undef, [], fun _ c => (.ok .undef, c)⟩
        (.obj [("parsed", .obj [("v", JsVal.num 1)]), ("error", .null),
          ("extra", .str "x")])) "data" = some (.obj [("v", JsVal.num 1)])
  ∧ assocLookup
      (storeOutput [("keep", JsVal.num 9)]
        ⟨"u", .undef, .obj [("parsed", .str "data"), ("error", .str "err")],
          .undef, [], fun _ c => (.ok .undef, c)⟩
        (.obj [("parsed", .obj [("v", JsVal.num 1)]), ("error", .null),
          ("extra", .str "x")])) "err" = some .null
  ∧ assocLookup
      (storeOutput [("keep", JsVal.num 9)]
        ⟨"u", .undef, .obj [("parsed", .str "data"), ("error", .str "err")],
          .undef, [], fun _ c => (.ok .undef, c)⟩
        (.obj [("parsed", .obj [("v", JsVal.num 1)]), ("error", .null),
          ("extra", .str "x")])) "extra" = none
  ∧ assocLookup
      (storeOutput [("keep", JsVal.num 9)]
        ⟨"u", .undef, .obj [("parsed", .str "data"), ("error", .str "err")],
          .undef, [], fun _ c => (.ok .undef, c)⟩
        (.obj [("parsed", .obj [("v", JsVal.num 1)]), ("error", .null),
          ("extra", .str "x")])) "keep" = some (JsVal.num 9) := by
  obtain ⟨hframe, hwrite⟩ := storeOutputMappingExact [("keep", JsVal.num 9)]
    ⟨"u", .undef, .obj [("parsed", .str "data"), ("error", .str "err")],
      .undef, [], fun _ c => (.ok .undef, c)⟩
    [("parsed", .str "data"), ("error", .str "err")]
    [("parsed", .obj [("v", JsVal.num 1)]), ("error", .null),
      ("extra", .str "x")] rfl (by decide)
  refine ⟨?_, ?_, ?_, ?_⟩
  · exact hwrite ("parsed", .str "data") (List.mem_cons_self _ _) rfl
  · exact hwrite ("error", .str "err")
      (List.mem_cons_of_mem _ (List.mem_cons_self _ _)) rfl
  · exact (hframe "extra" (by decide)).trans rfl
  · exact (hframe "keep" (by decide)).trans rfl

/-! ## Claim C2 -/

/-- The state in which the soft-error branch of `execute` halts: the output
stored by the normal rule, then `_error`, the failure metadata and the
summary entry recorded, the trace extended by just this block. -/
def softErrorState (b : Block) (o : JsVal) (ctx1 : Ctx) (st : EngineState)
    (i : Nat) : EngineState :=
  { bus := storeBlockMetadata
      (assocSet (storeOutput st.bus b o) "_error" (getProp o "error"))
      b.id false (getProp o "error")
    ctx := ctx1
    summary := pushResult (updateExecutionSummary st.summary false)
      b.id false (getProp o "error")
    trace := st.trace ++ [i] }

theorem meta_key_ne_error (id : String) :
    ("_error" : String) ≠ "_meta." ++ id := by
  intro he
  have h2 := congrArg String.data he
  have hdq : ("_error" : String).data = ['_', 'e', 'r', 'r', 'o', 'r'] := rfl
  have hdm : ("_meta." : String).data = ['_', 'm', 'e', 't', 'a', '.'] := rfl
  rw [String.data_append, hdq, hdm] at h2
  simp at h2

/-- C2: when the block at the cursor returns an output whose `error` field
is truthy, the very next thing `execute` does is final — whatever the rest
of the pipeline and whatever the Context (`continueOnError` included), the
run halts in `softErrorState`: the output is stored by the normal
output-storage rule, `_error` and the failure records are written, the trace
gains only this block (no subsequent block executes), and the final result
has `success = false` and `error` equal to the `error` field's value. -/
theorem softErrorHaltsPipeline (blocks : List Block) (fuel i : Nat)
    (st : EngineState) (h : i < blocks.length) (b : Block)
    (hb : blocks.get ⟨i, h⟩ = b) (o : JsVal) (ctx1 : Ctx)
    (hexec : blockExecute b (gatherInputs st.bus st.ctx b) st.ctx =
      (.ok o, ctx1))
    (herr : truthy (getProp o "error") = true) :
    execLoop blocks (fuel + 1) i st = some (softErrorState b o ctx1 st i)
  ∧ (mkResult (softErrorState b o ctx1 st i)).success = false
  ∧ (mkResult (softErrorState b o ctx1 st i)).error = some (getProp o "error")
  ∧ (softErrorState b o ctx1 st i).trace = st.trace ++ [i] := by
  have hlookup : assocLookup (softErrorState b o ctx1 st i).bus "_error" =
      some (getProp o "error") := by
    simp only [softErrorState, storeBlockMetadata]
    rw [assocLookup_set_ne _ _ _ _ (meta_key_ne_error b.id)]
    exact assocLookup_set_self _ _ _
  refine ⟨?_, ?_, ?_, rfl⟩
  · unfold execLoop
    rw [dif_pos h]
    simp only [hb, hexec, herr, if_true, softErrorState]
  · simp [mkResult, softErrorState, pushResult, updateExecutionSummary]
  · have hcd : containsDot ("_error" : String).data = false := rfl
    simp only [mkResult, busHasSlot, busGet, hlookup, hcd, Option.isSome_some,
      Bool.false_and, Bool.and_false, if_true, if_false, Option.getD_some]
    simp

/-- Witness for C2: a two-block pipeline whose first block soft-fails with
`error: boom`, under a Context with `continueOnError = true`; the second
block does not run. -/
theorem softErrorHaltsPipeline_check :
    execLoop
      [⟨"s", .undef, .undef, .undef, [], fun _ c =>
          (.ok (.obj [("error", .str "boom"), ("partial", JsVal.num 1)]), c)⟩,
        ⟨"b2", .undef, .undef, .undef, [], fun _ c => (.ok (.obj []), c)⟩]
      5 0 ⟨[("input", .obj [])], [("continueOnError", .bool true)],
        ⟨2, 0, 0, 0, false, []⟩, []⟩ =
      some (softErrorState
        ⟨"s", .undef, .undef, .undef, [], fun _ c =>
          (.ok (.obj [("error", .str "boom"), ("partial", JsVal.num 1)]), c)⟩
        (.obj [("error", .str "boom"), ("partial", JsVal.num 1)])
        [("continueOnError", .bool true)]
        ⟨[("input", .obj [])], [("continueOnError", .bool true)],
          ⟨2, 0, 0, 0, false, []⟩, []⟩ 0) := by
  exact (softErrorHaltsPipeline
    [⟨"s", .undef, .undef, .undef, [], fun _ c =>
        (.ok (.obj [("error", .str "boom"), ("partial", JsVal.num 1)]), c)⟩,
      ⟨"b2", .undef, .undef, .undef, [], fun _ c => (.ok (.obj []), c)⟩]
    4 0 ⟨[("input", .obj [])], [("continueOnError", .bool true)],
      ⟨2, 0, 0, 0, false, []⟩, []⟩ (by simp) _ rfl
    (.obj [("error", .str "boom"), ("partial", JsVal.num 1)])
    [("continueOnError", .bool true)] rfl rfl).1

/-! ## Claim C1 -/

/-- C1 (code bug): `handleBlockError` is called with `shouldThrow = false`
at both call sites in `execute` and then returns the break signal
unconditionally, so a thrown fault always halts the pipeline — the truthy
`continueOnError` in the Context is never consulted (the `continue`
statement after the call is dead code).  At this input the first block
throws and the second block never executes: the trace is `[0]`, one block
executed, the failure is recorded and the final success flag is `false`;
the claim (and the spec) expect the second block to run. -/
theorem continueOnErrorStillHalts :
    (execute
      [⟨"b1", .undef, .undef, .undef, [], fun _ c => (.error "boom", c)⟩,
       ⟨"b2", .undef, .undef, .undef, [], fun _ c =>
          (.ok (.obj [("ok", .bool true)]), c)⟩]
      [] [] (.obj []) [("continueOnError", .bool true)] 10).map
      (fun p => (p.2.trace, p.2.summary.executed, p.2.summary.failed,
        p.1.success, p.1.error, assocLookup p.2.bus "b2")) =
      some ([0], 1, 1, false, some (.str "boom"), none) := rfl

/-! ## Claim C5 -/

/-- C5: in a two-block pipeline whose second block always signals
`_loopTo: b0` with `_maxLoops: 3`, the backward jump is taken exactly 3
times — the blocks execute in the order `[0,1,0,1,0,1,0,1]` and on the 4th
signal the refused jump falls through to normal advance, ending the run —
and the per-target counter ends at 3.  Without `_maxLoops` the cap defaults
to 10 (11 passes, counter 10).  In general (third and fourth conjuncts), a
valid backward jump whose per-target counter has reached the cap is refused
with the context unchanged, and below the cap it is taken, incrementing the
counter. -/
theorem loopCapThreeThenAdvance :
    (execute
      [⟨"b0", .undef, .undef, .undef, [], fun _ c => (.ok (.obj []), c)⟩,
       ⟨"loop", .undef, .undef, .undef, [], fun _ c =>
          (.ok (.obj [("_loopTo", .str "b0"), ("_maxLoops", JsVal.num 3)]),
            c)⟩]
      [] [] (.obj []) [] 30).map
      (fun p => (p.2.trace, assocLookup p.2.ctx "_loopCount:b0",
        p.2.summary.executed)) =
      some ([0, 1, 0, 1, 0, 1, 0, 1], some (JsVal.num 3), 8)
  ∧ (execute
      [⟨"b0", .undef, .undef, .undef, [], fun _ c => (.ok (.obj []), c)⟩,
       ⟨"loop", .undef, .undef, .undef, [], fun _ c =>
          (.ok (.obj [("_loopTo", .str "b0")]), c)⟩]
      [] [] (.obj []) [] 30).map
      (fun p => (p.2.trace, assocLookup p.2.ctx "_loopCount:b0",
        p.2.summary.executed)) =
      some ([0, 1, 0, 1, 0, 1, 0, 1, 0, 1, 0, 1, 0, 1, 0, 1, 0, 1, 0, 1,
        0, 1], some (JsVal.num 10), 22)
  ∧ (∀ (blocks : List Block) (lt : JsVal) (i : Nat) (maxV : JsVal)
      (ctx : Ctx) (cap : Int),
      0 ≤ findBlockIndex blocks lt → findBlockIndex blocks lt < (i : Int) →
      loopCap maxV = some cap →
      counterVal (ctxGet ctx ("_loopCount:" ++ jsStringOf lt)) ≥ cap →
      handleLoop blocks lt i maxV ctx = (none, ctx))
  ∧ (∀ (blocks : List Block) (lt : JsVal) (i : Nat) (maxV : JsVal)
      (ctx : Ctx) (cap : Int),
      0 ≤ findBlockIndex blocks lt → findBlockIndex blocks lt < (i : Int) →
      loopCap maxV = some cap →
      counterVal (ctxGet ctx ("_loopCount:" ++ jsStringOf lt)) < cap →
      handleLoop blocks lt i maxV ctx =
        (some (findBlockIndex blocks lt).toNat,
          assocSet ctx ("_loopCount:" ++ jsStringOf lt)
            (.num (counterVal
              (ctxGet ctx ("_loopCount:" ++ jsStringOf lt)) + 1)))) := by
  refine ⟨rfl, rfl, ?_, ?_⟩
  · intro blocks lt i maxV ctx cap h0 hlt hcap hge
    unfold handleLoop
    rw [if_pos ⟨h0, hlt⟩, hcap]
    simp only [ge_iff_le, if_pos hge]
  · intro blocks lt i maxV ctx cap h0 hlt hcap hless
    unfold handleLoop
    rw [if_pos ⟨h0, hlt⟩, hcap]
    simp only [ge_iff_le]
    rw [if_neg (by omega)]

/-- Witness for C5's general conjuncts at the cap 3 and counters 3 and 2. -/
theorem loopCapThreeThenAdvance_check :
    handleLoop
      [⟨"b0", .undef, .undef, .undef, [], fun _ c => (.ok (.obj []), c)⟩]
      (.str "b0") 1 (JsVal.num 3) [("_loopCount:b0", JsVal.num 3)] =
      (none, [("_loopCount:b0", JsVal.num 3)])
  ∧ handleLoop
      [⟨"b0", .undef, .undef, .undef, [], fun _ c => (.ok (.obj []), c)⟩]
      (.str "b0") 1 (JsVal.num 3) [("_loopCount:b0", JsVal.num 2)] =
      (some 0, [("_loopCount:b0", JsVal.num 3)]) := by
  constructor
  · exact loopCapThreeThenAdvance.2.2.1
      [⟨"b0", .undef, .undef, .undef, [], fun _ c => (.ok (.obj []), c)⟩]
      (.str "b0") 1 (JsVal.num 3) [("_loopCount:b0", JsVal.num 3)] 3
      (by decide) (by decide) rfl (by decide)
  · exact loopCapThreeThenAdvance.2.2.2
      [⟨"b0", .undef, .undef, .undef, [], fun _ c => (.ok (.obj []), c)⟩]
      (.str "b0") 1 (JsVal.num 3) [("_loopCount:b0", JsVal.num 2)] 3
      (by decide) (by decide) rfl (by decide)

/-! ## Claim C8 -/

theorem arrSet_getD : ∀ (xs : List JsVal) (n : Nat) (v : JsVal),
    (arrSet xs n v).getD n .undef = v := by
  intro xs
  induction xs with
  | nil =>
      intro n
      induction n with
      | zero => intro v; rfl
      | succ m ih => intro v; simpa [arrSet, List.getD] using ih v
  | cons x rest ih =>
      intro n v
      cases n with
      | zero => rfl
      | succ m => simpa [arrSet, List.getD] using ih m v

theorem parseCanonNat_natOfDigits (l : List Char) (i : Nat)
    (h : parseCanonNat l = some i) : natOfDigits l = i := by
  cases l with
  | nil => cases h
  | cons c rest =>
      simp only [parseCanonNat] at h
      by_cases hc : c = '0'
      · subst hc
        by_cases hr : rest = ([] : List Char)
        · subst hr
          simp at h
          subst h
          rfl
        · simp [hr] at h
      · rw [if_neg hc] at h
        by_cases hd : (c :: rest).all (·.isDigit)
        · rw [if_pos hd] at h
          exact Option.some.inj h
        · rw [if_neg hd] at h
          cases h

theorem propSet_not_nullish (c c' : JsVal) (k : String) (v : JsVal)
    (h : propSet c k v = some c') : isNullish c' = false := by
  cases c with
  | obj m => simp [propSet] at h; subst h; rfl
  | arr xs =>
      simp only [propSet] at h
      rcases hp : parseCanonNat k.data with _ | i <;> rw [hp] at h
      · cases h
      · simp at h; subst h; rfl
  | undef => cases h
  | null => cases h
  | bool b => cases h
  | num n => cases h
  | str s => cases h

theorem elemSet_not_nullish (c c' : JsVal) (n : Nat) (v : JsVal)
    (h : elemSetNum c n v = some c') : isNullish c' = false := by
  cases c with
  | obj m => simp [elemSetNum] at h; subst h; rfl
  | arr xs => simp [elemSetNum] at h; subst h; rfl
  | undef => cases h
  | null => cases h
  | bool b => cases h
  | num n => cases h
  | str s => cases h

theorem parseCanonNat_ne_length (k : String) (i : Nat)
    (h : parseCanonNat k.data = some i) : k ≠ "length" := by
  intro he
  subst he
  cases h

theorem getProp_propSet (c c' : JsVal) (k : String) (v : JsVal)
    (h : propSet c k v = some c') : getProp c' k = v := by
  cases c with
  | obj m =>
      simp [propSet] at h
      subst h
      simp [getProp]
  | arr xs =>
      simp only [propSet] at h
      rcases hp : parseCanonNat k.data with _ | i <;> rw [hp] at h
      · cases h
      · simp at h
        subst h
        simp only [getProp, if_neg (parseCanonNat_ne_length k i hp), hp]
        exact arrSet_getD xs i v
  | undef => cases h
  | null => cases h
  | bool b => cases h
  | num n => cases h
  | str s => cases h

theorem elemGet_elemSet (c c' : JsVal) (n : Nat) (v : JsVal)
    (h : elemSetNum c n v = some c') : elemGetNum c' n = v := by
  cases c with
  | obj m =>
      simp [elemSetNum] at h
      subst h
      simp [elemGetNum]
  | arr xs =>
      simp [elemSetNum] at h
      subst h
      simp only [elemGetNum]
      exact arrSet_getD xs n v
  | undef => cases h
  | null => cases h
  | bool b => cases h
  | num n => cases h
  | str s => cases h

theorem setParts_getParts :
    ∀ (parts : List (List Char)) (current v out : JsVal), parts ≠ [] →
      setParts current parts v = some out → getParts out parts = v := by
  intro parts
  induction parts with
  | nil => intro current v out hne _; cases hne rfl
  | cons p ps ih =>
      intro current v out _ h
      cases ps with
      | nil =>
          simp only [setParts] at h
          rcases hsi : splitIndex p with _ | ⟨prop, ds⟩
          · simp only [hsi] at h
            have hnn := propSet_not_nullish _ _ _ _ h
            have hcp := getProp_propSet _ _ _ _ h
            simp [getParts, hnn, hsi, hcp]
          · simp only [hsi] at h
            rcases hes : elemSetNum
                (if truthy (getProp current (String.mk prop)) = true then
                  getProp current (String.mk prop) else .arr [])
                (natOfDigits ds) v with _ | c''
            · simp only [hes] at h
              simp at h
            · simp only [hes] at h
              have hnn := propSet_not_nullish _ _ _ _ h
              have hcp := getProp_propSet _ _ _ _ h
              have hnn2 := elemSet_not_nullish _ _ _ _ hes
              have hel := elemGet_elemSet _ _ _ _ hes
              simp [getParts, hnn, hsi, hcp, hnn2, hel]
      | cons q qs =>
          simp only [setParts] at h
          rcases hsi : splitIndex p with _ | ⟨prop, ds⟩
          · simp only [hsi] at h
            rcases hrec : setParts
                (if truthy (getProp current (String.mk p)) = true then
                  getProp current (String.mk p) else .obj [])
                (q :: qs) v with _ | child
            · simp only [hrec] at h
              simp at h
            · simp only [hrec] at h
              have hnn := propSet_not_nullish _ _ _ _ h
              have hcp := getProp_propSet _ _ _ _ h
              have htail := ih _ v child (by simp) hrec
              rw [show getParts out (p :: q :: qs) =
                  getParts (getProp out (String.mk p)) (q :: qs) from by
                simp [getParts, hnn, hsi]]
              rw [hcp]
              exact htail
          · simp only [hsi] at h
            rcases hcn : parseCanonNat ds with _ | idx
            · simp only [hcn] at h
              simp at h
            · simp only [hcn] at h
              rcases hrec : setParts
                  (if truthy (elemGetNum
                      (if truthy (getProp current (String.mk prop)) = true then
                        getProp current (String.mk prop) else .arr [])
                      idx) = true then
                    elemGetNum
                      (if truthy (getProp current (String.mk prop)) = true then
                        getProp current (String.mk prop) else .arr [])
                      idx
                  else .obj [])
                  (q :: qs) v with _ | child
              · simp only [hrec] at h
                simp at h
              · simp only [hrec] at h
                rcases hes : elemSetNum
                    (if truthy (getProp current (String.mk prop)) = true then
                      getProp current (String.mk prop) else .arr [])
                    idx child with _ | c1''
                · simp only [hes] at h
                  simp at h
                · simp only [hes] at h
                  have hnn := propSet_not_nullish _ _ _ _ h
                  have hcp := getProp_propSet _ _ _ _ h
                  have hnn2 := elemSet_not_nullish _ _ _ _ hes
                  have hidx := parseCanonNat_natOfDigits ds idx hcn
                  have hel := elemGet_elemSet _ _ _ _ hes
                  have htail := ih _ v child (by simp) hrec
                  rw [show getParts out (p :: q :: qs) =
                      getParts (elemGetNum (getProp out (String.mk prop))
                        (natOfDigits ds)) (q :: qs) from by
                    simp [getParts, hnn, hsi, hcp, hnn2]]
                  rw [hcp, hidx, hel]
                  exact htail

/-- C8: for every path on which `setPath` succeeds (the valid
dotted/indexed paths for the given target) and every value, reading the same
path back with `getPath` returns exactly the value written — the round-trip
identity of the path utilities, including `name[index]` array segments. -/
theorem setGetRoundTrip (root : JsVal) (p : String) (v out : JsVal)
    (hp : p ≠ "") (h : setPath root p v = some out) : getPath out p = v := by
  unfold setPath at h
  rw [if_neg hp] at h
  unfold getPath
  rw [if_neg hp]
  exact setParts_getParts (splitOnDot p.data) root v out
    (splitOnDot_ne_nil p.data) h

/-- Witness for C8 at the path `a.b[0].c` on an empty target. -/
theorem setGetRoundTrip_check :
    getPath (.obj [("a", .obj [("b",
      .arr [.obj [("c", JsVal.num 7)]])])]) "a.b[0].c" = JsVal.num 7 :=
  setGetRoundTrip (.obj []) "a.b[0].c" (JsVal.num 7)
    (.obj [("a", .obj [("b", .arr [.obj [("c", JsVal.num 7)]])])])
    (by decide) rfl

end SemanticTest
